import Mathlib

/-!
Verification development for a QOI-style image codec (`pyqoi.py`).

The file shallowly embeds the two core routines of the repository,
`_encode_chunk` / `encode` and `_decode_chunk` / `decode`, as executable
Lean functions over `List Nat` byte buffers, and proves or refutes the
frozen claims about them.

Modelling conventions:
* a byte buffer is a `List Nat` (the Python sources traffic in
  `bytearray` / `np.uint8` buffers, so real entries are `< 256`;
  theorems that need this carry it as a hypothesis);
* a pixel is a record of four `Nat` channels, matching the `RGBA`
  tuples of the source;
* the 256-byte `qoi_index` array of the source, which is used four
  bytes per slot, is modelled as a list of 64 pixels;
* a Python `IndexError` (out-of-bounds buffer read) is `DecErr.oob`,
  the `raise ValueError()` of `_decode_chunk` is `DecErr.malformed`,
  the `assert False` branch is `DecErr.assertFail`, and the
  `struct.unpack` failure on a stream shorter than 14 bytes is
  `DecErr.badHeader`;
* the decoder loop is driven by fuel so that it stays structurally
  recursive and kernel-computable; `decode` supplies
  `data.length + 1` fuel, which is more than the loop can consume
  since every iteration advances the read index by at least one;
* the preallocated output buffers of the source (`np.empty(...)`)
  never overflow for the inputs considered (at most 5 output bytes
  per input pixel on encode, at most 62 pixels per input byte on
  decode, matching the allocated `len(data) * 5 + 22` and
  `len(data) * 65 * 4`), so sequential writes into them are modelled
  as list appends.
-/

/-- An RGBA pixel, the `RGBA = tuple[int, int, int, int]` of the source. -/
structure Pixel where
  r : Nat
  g : Nat
  b : Nat
  a : Nat
deriving DecidableEq, Repr

/-- `STARTING_VALUE` / `INDEX_DEFAULT_VALUE` = `(0, 0, 0, 255)`. -/
def startPx : Pixel := ⟨0, 0, 0, 255⟩

/-- The recent-color index slot of a pixel:
`(3 * r + 5 * g + 7 * b + 11 * a) % 64` (lines 62 and 232 of the source). -/
def qoiHash (p : Pixel) : Nat :=
  (3 * p.r + 5 * p.g + 7 * p.b + 11 * p.a) % 64

/-- The initial 64-slot recent-color index: every slot holds `(0,0,0,255)`
(`qoi_index = bytearray(256); qoi_index[3::4] = 255 ...`). -/
def idx0 : List Pixel := List.replicate 64 startPx

/-- `END_STREAM_PILL = [0, 0, 0, 0, 0, 0, 0, 1]`. -/
def pill : List Nat := [0, 0, 0, 0, 0, 0, 0, 1]

/-- `MAGIC_STRING = [int(c) for c in b"qoif"]`. -/
def magic : List Nat := [113, 111, 105, 102]

/-- Big-endian 32-bit encoding of a number, one `>I` field of
`struct.Struct(">IIBB")`.  `struct.pack` requires `n < 2 ^ 32`; the
`% 256` on each byte reproduces exactly the packed bytes in that range. -/
def be32 (n : Nat) : List Nat :=
  [n / 2 ^ 24 % 256, n / 2 ^ 16 % 256, n / 2 ^ 8 % 256, n % 256]

/-- The mutable state threaded through `_encode_chunk`:
`qoi_index`, `running_total` and `old_rgba`. -/
structure EncCore where
  idx : List Pixel
  run : Nat
  old : Pixel
deriving DecidableEq, Repr

/-- The pending-run flush of `_encode_chunk`
(`QOI_OP_RUN | (running_total - 1)`, emitted when `running_total > 0`). -/
def encFlush (c : EncCore) : List Nat :=
  if c.run > 0 then [192 + (c.run - 1)] else []

/-- The operation-selection chain of `_encode_chunk` (lines 62-115) for a
pixel `p ≠ old_rgba`: the emitted bytes of the INDEX / DIFF / LUMA / RGB /
RGBA operation.  Note that in the source the per-channel deltas are
`rgba[k] - old_rgba[k] % 256`, which by Python precedence is
`rgba[k] - (old_rgba[k] % 256)`: a plain (non-wrapping) difference. -/
def encOp (c : EncCore) (p : Pixel) : List Nat :=
  let pos := qoiHash p
  let indexed := c.idx.getD pos startPx
  let dr : Int := (p.r : Int) - (c.old.r : Int) % 256
  let dg : Int := (p.g : Int) - (c.old.g : Int) % 256
  let db : Int := (p.b : Int) - (c.old.b : Int) % 256
  let dgr : Int := dr - dg
  let dgb : Int := db - dg
  if indexed = p then
    [pos]
  else if dr > -3 ∧ dr < 2 ∧ dg > -3 ∧ dg < 2 ∧ db > -3 ∧ db < 2 ∧ p.a = c.old.a then
    [64 + (dr + 2).toNat * 16 + (dg + 2).toNat * 4 + (db + 2).toNat]
  else if dgr > -9 ∧ dgr < 8 ∧ dg > -33 ∧ dg < 32 ∧ dgb > -9 ∧ dgb < 8 ∧ p.a = c.old.a then
    [128 + (dg + 32).toNat, (dgr + 8).toNat * 16 + (dgb + 8).toNat]
  else if p.a = c.old.a then
    [254, p.r, p.g, p.b]
  else
    [255, p.r, p.g, p.b, p.a]

/-- One iteration of the `_encode_chunk` pixel loop: returns the updated
core state and the bytes written during the iteration. -/
def encStep (c : EncCore) (p : Pixel) : EncCore × List Nat :=
  if p = c.old then
    if c.run + 1 = 62 then (⟨c.idx, 0, c.old⟩, [192 + 61])
    else (⟨c.idx, c.run + 1, c.old⟩, [])
  else
    (⟨c.idx.set (qoiHash p) p, 0, p⟩, encFlush c ++ encOp c p)

/-- The `_encode_chunk` pixel loop over a list of pixels. -/
def encChunk (c : EncCore) : List Pixel → EncCore × List Nat
  | [] => (c, [])
  | p :: ps =>
    let s := encStep c p
    let t := encChunk s.1 ps
    (t.1, s.2 ++ t.2)

/-- All body bytes produced by `_encode_chunk(... end_stream=True)` from
core state `c` on the remaining pixels: the loop output followed by the
final run flush. -/
def bytesFrom (c : EncCore) (ps : List Pixel) : List Nat :=
  (encChunk c ps).2 ++ encFlush (encChunk c ps).1

/-- Group a flat byte buffer into pixels, 4 bytes per pixel, as the
`range(chunk_start, chunk_end, 4)` loop of `_encode_chunk` reads it
(the claims only concern buffers whose length is a multiple of 4). -/
def toPixels : List Nat → List Pixel
  | r :: g :: b :: a :: rest => ⟨r, g, b, a⟩ :: toPixels rest
  | _ => []

/-- `encode(data, width, height, colorspace)`: magic, 14-byte header
(`>IIBB` of width, height, channels=4, colorspace), body, end marker. -/
def encode (data : List Nat) (width height colorspace : Nat) : List Nat :=
  magic ++ be32 width ++ be32 height ++ [4, colorspace % 256]
    ++ bytesFrom ⟨idx0, 0, startPx⟩ (toPixels data) ++ pill

/-- Decoder failure modes; see the module docstring for the mapping to
the Python exceptions. -/
inductive DecErr where
  | badHeader
  | oob
  | malformed
  | assertFail
  | fuelOut
deriving DecidableEq, Repr

deriving instance DecidableEq for Except

/-- The mutable state of the `_decode_chunk` loop: `read_index`,
`qoi_index`, `old_rgba` and the pixels written to the output buffer. -/
structure DecState where
  ri : Nat
  idx : List Pixel
  old : Pixel
  acc : List Pixel
deriving DecidableEq, Repr

/-- Result of one iteration of the `_decode_chunk` loop. -/
inductive StepRes where
  | next (s : DecState)
  | stop
  | err (e : DecErr)
deriving DecidableEq, Repr

/-- The 8 bytes of `data` starting at position `i` (the window compared
against `END_STREAM_PILL`); callers check `i + 8 ≤ data.length`
separately, mirroring the bounds of the Python reads. -/
def window8 (data : List Nat) (i : Nat) : List Nat :=
  (data.drop i).take 8

/-- Lines 231-237 of the source: after an operation wrote its pixel(s),
re-hash the last written pixel, store it in the index and make it the
new reference pixel; `k` is the number of stream bytes the operation
consumed. -/
def pushPixel (s : DecState) (p : Pixel) (k : Nat) : StepRes :=
  .next ⟨s.ri + k, s.idx.set (qoiHash p) p, p, s.acc ++ [p]⟩

/-- The operation dispatch of `_decode_chunk` (lines 169-229): exact
RGBA / RGB tag matches first, then the top-two-bit cases. -/
def decodeDispatch (data : List Nat) (s : DecState) (byte : Nat) : StepRes :=
  if byte = 255 then
    match data[s.ri + 1]?, data[s.ri + 2]?, data[s.ri + 3]?, data[s.ri + 4]? with
    | some r, some g, some b, some a => pushPixel s ⟨r, g, b, a⟩ 5
    | _, _, _, _ => .err .oob
  else if byte = 254 then
    match data[s.ri + 1]?, data[s.ri + 2]?, data[s.ri + 3]? with
    | some r, some g, some b => pushPixel s ⟨r, g, b, s.old.a⟩ 4
    | _, _, _ => .err .oob
  else if byte / 64 = 3 then
    .next ⟨s.ri + 1, s.idx.set (qoiHash s.old) s.old, s.old,
           s.acc ++ List.replicate (byte % 64 + 1) s.old⟩
  else if byte / 64 = 2 then
    match data[s.ri + 1]? with
    | some nb =>
      let dg : Int := (byte % 64 : Nat) - 32
      let r : Nat := (((s.old.r : Int) + (dg - 8 + ((nb / 16 % 16 : Nat) : Int))) % 256).toNat
      let g : Nat := (((s.old.g : Int) + dg) % 256).toNat
      let b : Nat := (((s.old.b : Int) + (dg - 8 + ((nb % 16 : Nat) : Int))) % 256).toNat
      pushPixel s ⟨r, g, b, s.old.a⟩ 2
    | none => .err .oob
  else if byte / 64 = 1 then
    let r : Nat := (((s.old.r : Int) + ((byte / 16 % 4 : Nat) : Int) - 2) % 256).toNat
    let g : Nat := (((s.old.g : Int) + ((byte / 4 % 4 : Nat) : Int) - 2) % 256).toNat
    let b : Nat := (((s.old.b : Int) + ((byte % 4 : Nat) : Int) - 2) % 256).toNat
    pushPixel s ⟨r, g, b, s.old.a⟩ 1
  else if byte / 64 = 0 then
    pushPixel s (s.idx.getD byte startPx) 1
  else .err .assertFail

/-- One iteration of the `_decode_chunk` loop body (lines 147-237):
the double-`0x00` end-marker disambiguation first (lines 149-167, with
its reads bounds-checked exactly as Python array reads would raise),
then the operation dispatch. -/
def decodeStep (data : List Nat) (s : DecState) : StepRes :=
  match data[s.ri]? with
  | none => .err .oob
  | some byte =>
    if byte = 0 then
      match data[s.ri + 1]? with
      | none => .err .oob
      | some nb =>
        if nb = 0 then
          if s.ri + 8 ≤ data.length then
            if window8 data s.ri = pill then .stop
            else if s.ri + 9 ≤ data.length then
              if window8 data (s.ri + 1) = pill then .stop
              else .err .malformed
            else .err .oob
          else .err .oob
        else decodeDispatch data s byte
    else decodeDispatch data s byte

/-- The `while read_index < chunk_end` loop of `_decode_chunk`, driven by
fuel.  On the end-marker return the source yields `-1` as the read index,
on normal exhaustion the final read index; `decode` discards both. -/
def decodeChunkF (data : List Nat) (chunkEnd : Nat) :
    Nat → DecState → Except DecErr (List Pixel × Int × Pixel)
  | 0, s =>
    if s.ri < chunkEnd then .error .fuelOut
    else .ok (s.acc, (s.ri : Int), s.old)
  | fuel + 1, s =>
    if s.ri < chunkEnd then
      match decodeStep data s with
      | .next t => decodeChunkF data chunkEnd fuel t
      | .stop => .ok (s.acc, -1, s.old)
      | .err e => .error e
    else .ok (s.acc, (s.ri : Int), s.old)

/-- The four output bytes of one decoded pixel. -/
def pixelBytes (p : Pixel) : List Nat := [p.r, p.g, p.b, p.a]

/-- `decode(data)`: unpack (and discard) the header at offsets 4..14,
then run `_decode_chunk` from offset 14 to `len(data)` and return the
written prefix of the output buffer. -/
def decode (data : List Nat) : Except DecErr (List Nat) :=
  if data.length < 14 then .error .badHeader
  else
    match decodeChunkF data data.length (data.length + 1) ⟨14, idx0, startPx, []⟩ with
    | .ok res => .ok (res.1.map pixelBytes).flatten
    | .error e => .error e

/-- Reachability of one `_decode_chunk` loop state from another: zero or
more successful loop iterations, each taken while `read_index < chunk_end`. -/
inductive DecReach (data : List Nat) (chunkEnd : Nat) : DecState → DecState → Prop
  | refl (s : DecState) : DecReach data chunkEnd s s
  | head {s t u : DecState} : s.ri < chunkEnd → decodeStep data s = .next t →
      DecReach data chunkEnd t u → DecReach data chunkEnd s u

/-- The condition under which the loop body raises `ValueError`: two
consecutive `0x00` bytes whose two candidate 8-byte end-marker windows
both lie inside the buffer and both differ from the end marker. -/
def BadAt (data : List Nat) (ri : Nat) : Prop :=
  data[ri]? = some 0 ∧ data[ri + 1]? = some 0 ∧ ri + 9 ≤ data.length ∧
    window8 data ri ≠ pill ∧ window8 data (ri + 1) ≠ pill

instance (data : List Nat) (ri : Nat) : Decidable (BadAt data ri) := by
  unfold BadAt; infer_instance

/-- The recent-color index resulting from storing each pixel of a list in
turn at its hash slot (shared shape of the encoder's and decoder's index
updates). -/
def indexAfter (idx : List Pixel) (ps : List Pixel) : List Pixel :=
  ps.foldl (fun i p => i.set (qoiHash p) p) idx

/-! ### List helper lemmas -/

theorem getAfter {α : Type} (pre l : List α) (k : Nat) :
    (pre ++ l)[pre.length + k]? = l[k]? := by
  rw [List.getElem?_append_right (Nat.le_add_right _ _), Nat.add_sub_cancel_left]

theorem getAfter0 {α : Type} (pre l : List α) :
    (pre ++ l)[pre.length]? = l[0]? := by
  simpa using getAfter pre l 0

theorem dropAfter {α : Type} (pre l : List α) (k : Nat) :
    (pre ++ l).drop (pre.length + k) = l.drop k := by
  rw [← List.drop_drop, List.drop_left]

theorem lt_length_of_get_some {α : Type} {l : List α} {n : Nat} {a : α}
    (h : l[n]? = some a) : n < l.length := by
  by_contra hn
  push_neg at hn
  rw [List.getElem?_eq_none hn] at h
  cases h

theorem getD_set_self {α : Type} (l : List α) (i : Nat) (x d : α) (h : i < l.length) :
    (l.set i x).getD i d = x := by
  induction l generalizing i with
  | nil => simp at h
  | cons y ys ih =>
    cases i with
    | zero => rfl
    | succ j => exact ih j (by simpa using h)

theorem set_of_getD {α : Type} (l : List α) (i : Nat) (x d : α)
    (h : i < l.length) (hx : l.getD i d = x) : l.set i x = l := by
  induction l generalizing i with
  | nil => simp at h
  | cons y ys ih =>
    cases i with
    | zero => simpa using hx.symm
    | succ j =>
      simp only [List.set_cons_succ, List.cons.injEq, true_and]
      exact ih j (by simpa using h) (by simpa using hx)

/-! ### Encoder step lemmas -/

theorem encChunk_cons (c : EncCore) (p : Pixel) (ps : List Pixel) :
    encChunk c (p :: ps) =
      ((encChunk (encStep c p).1 ps).1, (encStep c p).2 ++ (encChunk (encStep c p).1 ps).2) := rfl

theorem bytesFrom_nil (c : EncCore) : bytesFrom c [] = encFlush c := by
  simp [bytesFrom, encChunk]

theorem bytesFrom_cons (c : EncCore) (p : Pixel) (ps : List Pixel) :
    bytesFrom c (p :: ps) = (encStep c p).2 ++ bytesFrom (encStep c p).1 ps := by
  simp [bytesFrom, encChunk_cons, List.append_assoc]

theorem encStep_bump {c : EncCore} {p : Pixel} (h : p = c.old) (h62 : c.run + 1 ≠ 62) :
    encStep c p = (⟨c.idx, c.run + 1, c.old⟩, []) := by
  simp [encStep, h, h62]

theorem encStep_flush62 {c : EncCore} {p : Pixel} (h : p = c.old) (h62 : c.run + 1 = 62) :
    encStep c p = (⟨c.idx, 0, c.old⟩, [253]) := by
  simp [encStep, h, h62]

theorem encStep_op {c : EncCore} {p : Pixel} (h : p ≠ c.old) :
    encStep c p = (⟨c.idx.set (qoiHash p) p, 0, p⟩, encFlush c ++ encOp c p) := by
  simp [encStep, h]

theorem encOp_index {c : EncCore} {p : Pixel} (h : c.idx.getD (qoiHash p) startPx = p) :
    encOp c p = [qoiHash p] := by
  simp only [encOp]
  rw [if_pos h]

theorem encOp_diff {c : EncCore} {p : Pixel}
    (hni : c.idx.getD (qoiHash p) startPx ≠ p)
    (hd : (p.r : Int) - (c.old.r : Int) % 256 > -3 ∧ (p.r : Int) - (c.old.r : Int) % 256 < 2 ∧
          (p.g : Int) - (c.old.g : Int) % 256 > -3 ∧ (p.g : Int) - (c.old.g : Int) % 256 < 2 ∧
          (p.b : Int) - (c.old.b : Int) % 256 > -3 ∧ (p.b : Int) - (c.old.b : Int) % 256 < 2 ∧
          p.a = c.old.a) :
    encOp c p =
      [64 + ((p.r : Int) - (c.old.r : Int) % 256 + 2).toNat * 16 +
         ((p.g : Int) - (c.old.g : Int) % 256 + 2).toNat * 4 +
         ((p.b : Int) - (c.old.b : Int) % 256 + 2).toNat] := by
  simp only [encOp]
  rw [if_neg hni, if_pos hd]

theorem encOp_luma {c : EncCore} {p : Pixel}
    (hni : c.idx.getD (qoiHash p) startPx ≠ p)
    (hnd : ¬((p.r : Int) - (c.old.r : Int) % 256 > -3 ∧ (p.r : Int) - (c.old.r : Int) % 256 < 2 ∧
          (p.g : Int) - (c.old.g : Int) % 256 > -3 ∧ (p.g : Int) - (c.old.g : Int) % 256 < 2 ∧
          (p.b : Int) - (c.old.b : Int) % 256 > -3 ∧ (p.b : Int) - (c.old.b : Int) % 256 < 2 ∧
          p.a = c.old.a))
    (hl : ((p.r : Int) - (c.old.r : Int) % 256) - ((p.g : Int) - (c.old.g : Int) % 256) > -9 ∧
          ((p.r : Int) - (c.old.r : Int) % 256) - ((p.g : Int) - (c.old.g : Int) % 256) < 8 ∧
          (p.g : Int) - (c.old.g : Int) % 256 > -33 ∧ (p.g : Int) - (c.old.g : Int) % 256 < 32 ∧
          ((p.b : Int) - (c.old.b : Int) % 256) - ((p.g : Int) - (c.old.g : Int) % 256) > -9 ∧
          ((p.b : Int) - (c.old.b : Int) % 256) - ((p.g : Int) - (c.old.g : Int) % 256) < 8 ∧
          p.a = c.old.a) :
    encOp c p =
      [128 + ((p.g : Int) - (c.old.g : Int) % 256 + 32).toNat,
        (((p.r : Int) - (c.old.r : Int) % 256) - ((p.g : Int) - (c.old.g : Int) % 256) + 8).toNat * 16 +
          (((p.b : Int) - (c.old.b : Int) % 256) - ((p.g : Int) - (c.old.g : Int) % 256) + 8).toNat] := by
  simp only [encOp]
  rw [if_neg hni, if_neg hnd, if_pos hl]

theorem encOp_rgb {c : EncCore} {p : Pixel}
    (hni : c.idx.getD (qoiHash p) startPx ≠ p)
    (hnd : ¬((p.r : Int) - (c.old.r : Int) % 256 > -3 ∧ (p.r : Int) - (c.old.r : Int) % 256 < 2 ∧
          (p.g : Int) - (c.old.g : Int) % 256 > -3 ∧ (p.g : Int) - (c.old.g : Int) % 256 < 2 ∧
          (p.b : Int) - (c.old.b : Int) % 256 > -3 ∧ (p.b : Int) - (c.old.b : Int) % 256 < 2 ∧
          p.a = c.old.a))
    (hnl : ¬(((p.r : Int) - (c.old.r : Int) % 256) - ((p.g : Int) - (c.old.g : Int) % 256) > -9 ∧
          ((p.r : Int) - (c.old.r : Int) % 256) - ((p.g : Int) - (c.old.g : Int) % 256) < 8 ∧
          (p.g : Int) - (c.old.g : Int) % 256 > -33 ∧ (p.g : Int) - (c.old.g : Int) % 256 < 32 ∧
          ((p.b : Int) - (c.old.b : Int) % 256) - ((p.g : Int) - (c.old.g : Int) % 256) > -9 ∧
          ((p.b : Int) - (c.old.b : Int) % 256) - ((p.g : Int) - (c.old.g : Int) % 256) < 8 ∧
          p.a = c.old.a))
    (ha : p.a = c.old.a) :
    encOp c p = [254, p.r, p.g, p.b] := by
  simp only [encOp]
  rw [if_neg hni, if_neg hnd, if_neg hnl, if_pos ha]

theorem encOp_rgba {c : EncCore} {p : Pixel}
    (hni : c.idx.getD (qoiHash p) startPx ≠ p) (ha : p.a ≠ c.old.a) :
    encOp c p = [255, p.r, p.g, p.b, p.a] := by
  simp only [encOp]
  rw [if_neg hni, if_neg (by simp [ha]), if_neg (by simp [ha]), if_neg ha]

/-! ### Decoder step lemmas -/

theorem decodeStep_oob {data : List Nat} {s : DecState}
    (h0 : data[s.ri]? = none) : decodeStep data s = .err .oob := by
  simp only [decodeStep, h0]

theorem decodeStep_dispatch {data : List Nat} {s : DecState} {byte : Nat}
    (h0 : data[s.ri]? = some byte) (hb : byte ≠ 0) :
    decodeStep data s = decodeDispatch data s byte := by
  simp only [decodeStep, h0]
  rw [if_neg hb]

theorem decodeStep_zero_dispatch {data : List Nat} {s : DecState} {nb : Nat}
    (h0 : data[s.ri]? = some 0) (h1 : data[s.ri + 1]? = some nb) (hnb : nb ≠ 0) :
    decodeStep data s = decodeDispatch data s 0 := by
  simp [decodeStep, h0, h1, hnb]

theorem decodeStep_stop1 {data : List Nat} {s : DecState}
    (h0 : data[s.ri]? = some 0) (h1 : data[s.ri + 1]? = some 0)
    (hb : s.ri + 8 ≤ data.length) (hw : window8 data s.ri = pill) :
    decodeStep data s = .stop := by
  simp [decodeStep, h0, h1, hb, hw]

theorem decodeStep_stop2 {data : List Nat} {s : DecState}
    (h0 : data[s.ri]? = some 0) (h1 : data[s.ri + 1]? = some 0)
    (hb : s.ri + 8 ≤ data.length) (hw1 : window8 data s.ri ≠ pill)
    (hb9 : s.ri + 9 ≤ data.length) (hw2 : window8 data (s.ri + 1) = pill) :
    decodeStep data s = .stop := by
  simp [decodeStep, h0, h1, hb, hw1, hb9, hw2]

theorem dispatch_rgba {data : List Nat} {s : DecState} {r g b a : Nat}
    (h1 : data[s.ri + 1]? = some r) (h2 : data[s.ri + 2]? = some g)
    (h3 : data[s.ri + 3]? = some b) (h4 : data[s.ri + 4]? = some a) :
    decodeDispatch data s 255 = pushPixel s ⟨r, g, b, a⟩ 5 := by
  simp [decodeDispatch, h1, h2, h3, h4]

theorem dispatch_rgb {data : List Nat} {s : DecState} {r g b : Nat}
    (h1 : data[s.ri + 1]? = some r) (h2 : data[s.ri + 2]? = some g)
    (h3 : data[s.ri + 3]? = some b) :
    decodeDispatch data s 254 = pushPixel s ⟨r, g, b, s.old.a⟩ 4 := by
  simp [decodeDispatch, h1, h2, h3]

theorem dispatch_run {data : List Nat} {s : DecState} {byte : Nat}
    (hb : byte / 64 = 3) (h255 : byte ≠ 255) (h254 : byte ≠ 254) :
    decodeDispatch data s byte =
      .next ⟨s.ri + 1, s.idx.set (qoiHash s.old) s.old, s.old,
             s.acc ++ List.replicate (byte % 64 + 1) s.old⟩ := by
  simp [decodeDispatch, h255, h254, hb]

theorem dispatch_luma {data : List Nat} {s : DecState} {byte nb : Nat}
    (hb : byte / 64 = 2) (h1 : data[s.ri + 1]? = some nb) :
    decodeDispatch data s byte =
      pushPixel s
        ⟨(((s.old.r : Int) + (((byte % 64 : Nat) : Int) - 32 - 8 + ((nb / 16 % 16 : Nat) : Int))) % 256).toNat,
         (((s.old.g : Int) + (((byte % 64 : Nat) : Int) - 32)) % 256).toNat,
         (((s.old.b : Int) + (((byte % 64 : Nat) : Int) - 32 - 8 + ((nb % 16 : Nat) : Int))) % 256).toNat,
         s.old.a⟩ 2 := by
  have h255 : byte ≠ 255 := by omega
  have h254 : byte ≠ 254 := by omega
  have h3 : byte / 64 ≠ 3 := by omega
  simp only [decodeDispatch, if_neg h255, if_neg h254, if_neg h3, if_pos hb, h1]

theorem dispatch_diff {data : List Nat} {s : DecState} {byte : Nat}
    (hb : byte / 64 = 1) :
    decodeDispatch data s byte =
      pushPixel s
        ⟨(((s.old.r : Int) + ((byte / 16 % 4 : Nat) : Int) - 2) % 256).toNat,
         (((s.old.g : Int) + ((byte / 4 % 4 : Nat) : Int) - 2) % 256).toNat,
         (((s.old.b : Int) + ((byte % 4 : Nat) : Int) - 2) % 256).toNat,
         s.old.a⟩ 1 := by
  have h255 : byte ≠ 255 := by omega
  have h254 : byte ≠ 254 := by omega
  have h3 : byte / 64 ≠ 3 := by omega
  have h2 : byte / 64 ≠ 2 := by omega
  simp only [decodeDispatch, if_neg h255, if_neg h254, if_neg h3, if_neg h2, if_pos hb]

theorem dispatch_index {data : List Nat} {s : DecState} {byte : Nat}
    (hb : byte / 64 = 0) :
    decodeDispatch data s byte = pushPixel s (s.idx.getD byte startPx) 1 := by
  have h255 : byte ≠ 255 := by omega
  have h254 : byte ≠ 254 := by omega
  have h3 : byte / 64 ≠ 3 := by omega
  have h2 : byte / 64 ≠ 2 := by omega
  have h1 : byte / 64 ≠ 1 := by omega
  simp only [decodeDispatch, if_neg h255, if_neg h254, if_neg h3, if_neg h2, if_neg h1, if_pos hb]

theorem chunk_next {data : List Nat} {ce fuel : Nat} {s t : DecState}
    (hlt : s.ri < ce) (hs : decodeStep data s = .next t) :
    decodeChunkF data ce (fuel + 1) s = decodeChunkF data ce fuel t := by
  simp [decodeChunkF, hlt, hs]

theorem chunk_stop {data : List Nat} {ce fuel : Nat} {s : DecState}
    (hlt : s.ri < ce) (hs : decodeStep data s = .stop) :
    decodeChunkF data ce (fuel + 1) s = .ok (s.acc, -1, s.old) := by
  simp [decodeChunkF, hlt, hs]

theorem chunk_err {data : List Nat} {ce fuel : Nat} {s : DecState} {e : DecErr}
    (hlt : s.ri < ce) (hs : decodeStep data s = .err e) :
    decodeChunkF data ce (fuel + 1) s = .error e := by
  simp [decodeChunkF, hlt, hs]

theorem chunk_exit {data : List Nat} {ce fuel : Nat} {s : DecState}
    (hge : ¬s.ri < ce) :
    decodeChunkF data ce fuel s = .ok (s.acc, (s.ri : Int), s.old) := by
  cases fuel <;> simp [decodeChunkF, hge]

theorem pushPixel_next {s : DecState} {p : Pixel} {k : Nat} {t : DecState}
    (h : pushPixel s p k = .next t) : t = ⟨s.ri + k, s.idx.set (qoiHash p) p, p, s.acc ++ [p]⟩ := by
  unfold pushPixel at h
  cases h
  rfl

theorem dispatch_next_ri {data : List Nat} {s : DecState} {byte : Nat} {t : DecState}
    (h : decodeDispatch data s byte = .next t) : s.ri < t.ri := by
  unfold decodeDispatch pushPixel at h
  repeat' split at h
  all_goals try exact StepRes.noConfusion h
  all_goals (cases h; simp_arith)

theorem decodeStep_next_ri {data : List Nat} {s t : DecState}
    (h : decodeStep data s = .next t) : s.ri < t.ri := by
  unfold decodeStep at h
  repeat' split at h
  all_goals try exact StepRes.noConfusion h
  all_goals exact dispatch_next_ri h

/-- The first byte the encoder can still emit from a state whose index
slot 0 holds the reference pixel is never `0x00`: a slot-0 INDEX
operation cannot immediately follow a pixel that was just stored in
slot 0.  Used to show that a `0x00` INDEX byte in the body is never
followed by a second `0x00` body byte. -/
theorem bytesFrom_head_ne_zero :
    ∀ (ps : List Pixel) (c : EncCore), c.idx.getD 0 startPx = c.old →
      ∀ b l, bytesFrom c ps = b :: l → b ≠ 0 := by
  intro ps
  induction ps with
  | nil =>
    intro c _ b l hb
    rw [bytesFrom_nil, encFlush] at hb
    split at hb
    · cases hb
      omega
    · cases hb
  | cons p ps ih =>
    intro c h0 b l hb
    rw [bytesFrom_cons] at hb
    by_cases hpe : p = c.old
    · by_cases h62 : c.run + 1 = 62
      · rw [encStep_flush62 hpe h62] at hb
        cases hb
        omega
      · rw [encStep_bump hpe h62] at hb
        simp only [List.nil_append] at hb
        exact ih ⟨c.idx, c.run + 1, c.old⟩ h0 b l hb
    · rw [encStep_op hpe] at hb
      simp only at hb
      rw [encFlush] at hb
      split at hb
      · cases hb
        omega
      · simp only [List.nil_append] at hb
        by_cases hI : c.idx.getD (qoiHash p) startPx = p
        · rw [encOp_index hI] at hb
          cases hb
          intro hz
          rw [hz] at hI
          exact hpe (hI.symm.trans h0)
        · by_cases hd : (p.r : Int) - (c.old.r : Int) % 256 > -3 ∧
              (p.r : Int) - (c.old.r : Int) % 256 < 2 ∧
              (p.g : Int) - (c.old.g : Int) % 256 > -3 ∧ (p.g : Int) - (c.old.g : Int) % 256 < 2 ∧
              (p.b : Int) - (c.old.b : Int) % 256 > -3 ∧ (p.b : Int) - (c.old.b : Int) % 256 < 2 ∧
              p.a = c.old.a
          · rw [encOp_diff hI hd] at hb
            cases hb
            omega
          · by_cases hl : ((p.r : Int) - (c.old.r : Int) % 256) - ((p.g : Int) - (c.old.g : Int) % 256) > -9 ∧
                ((p.r : Int) - (c.old.r : Int) % 256) - ((p.g : Int) - (c.old.g : Int) % 256) < 8 ∧
                (p.g : Int) - (c.old.g : Int) % 256 > -33 ∧ (p.g : Int) - (c.old.g : Int) % 256 < 32 ∧
                ((p.b : Int) - (c.old.b : Int) % 256) - ((p.g : Int) - (c.old.g : Int) % 256) > -9 ∧
                ((p.b : Int) - (c.old.b : Int) % 256) - ((p.g : Int) - (c.old.g : Int) % 256) < 8 ∧
                p.a = c.old.a
            · rw [encOp_luma hI hd hl] at hb
              cases hb
              omega
            · by_cases ha : p.a = c.old.a
              · rw [encOp_rgb hI hd hl ha] at hb
                cases hb
                omega
              · rw [encOp_rgba hI ha] at hb
                cases hb
                omega

/-- A decoder positioned exactly at the end marker stops. -/
theorem stopAtPill (pre : List Nat) (i : List Pixel) (o : Pixel) (a : List Pixel)
    (fuel : Nat) (hf : 1 ≤ fuel) :
    decodeChunkF (pre ++ pill) (pre ++ pill).length fuel ⟨pre.length, i, o, a⟩ =
      .ok (a, -1, o) := by
  obtain ⟨f, rfl⟩ : ∃ f, fuel = f + 1 := ⟨fuel - 1, by omega⟩
  have hlen : (pre ++ pill).length = pre.length + 8 := by simp [pill]
  have h0 : (pre ++ pill)[pre.length]? = some 0 := by rw [getAfter0]; rfl
  have h1 : (pre ++ pill)[pre.length + 1]? = some 0 := by rw [getAfter]; rfl
  have hw : window8 (pre ++ pill) pre.length = pill := by
    unfold window8
    rw [List.drop_left]
    rfl
  exact chunk_stop (show pre.length < (pre ++ pill).length by omega)
    (decodeStep_stop1 h0 h1 (show pre.length + 8 ≤ (pre ++ pill).length by omega) hw)

/-- A decoder positioned at a `0x00` INDEX byte that is directly followed
by the end marker stops via the shifted window check, dropping the INDEX
operation. -/
theorem stopIndexZeroEnd (pre : List Nat) (i : List Pixel) (o : Pixel) (a : List Pixel)
    (fuel : Nat) (hf : 1 ≤ fuel) :
    decodeChunkF (pre ++ 0 :: pill) (pre ++ 0 :: pill).length fuel ⟨pre.length, i, o, a⟩ =
      .ok (a, -1, o) := by
  obtain ⟨f, rfl⟩ : ∃ f, fuel = f + 1 := ⟨fuel - 1, by omega⟩
  have hlen : (pre ++ 0 :: pill).length = pre.length + 9 := by simp [pill]
  have h0 : (pre ++ 0 :: pill)[pre.length]? = some 0 := by rw [getAfter0]; rfl
  have h1 : (pre ++ 0 :: pill)[pre.length + 1]? = some 0 := by rw [getAfter]; rfl
  have hw1 : window8 (pre ++ 0 :: pill) pre.length ≠ pill := by
    unfold window8
    rw [List.drop_left]
    decide
  have hw2 : window8 (pre ++ 0 :: pill) (pre.length + 1) = pill := by
    unfold window8
    rw [dropAfter]
    rfl
  exact chunk_stop (show pre.length < (pre ++ 0 :: pill).length by omega)
    (decodeStep_stop2 h0 h1 (show pre.length + 8 ≤ (pre ++ 0 :: pill).length by omega) hw1
      (show pre.length + 9 ≤ (pre ++ 0 :: pill).length by omega) hw2)

/-- A decoder positioned at a RUN-tagged byte (which every flush byte and
the max-run byte `0xFD` is) consumes exactly that byte. -/
theorem runByteStep (b : Nat) (hb1 : 192 ≤ b) (hb2 : b ≤ 253)
    (pre tail : List Nat) (i : List Pixel) (o : Pixel) (a : List Pixel) (fuel : Nat) :
    ∃ i2 a2, decodeChunkF (pre ++ b :: tail) (pre ++ b :: tail).length (fuel + 1)
        ⟨pre.length, i, o, a⟩ =
      decodeChunkF (pre ++ b :: tail) (pre ++ b :: tail).length fuel
        ⟨pre.length + 1, i2, o, a2⟩ := by
  have hlen : (pre ++ b :: tail).length = pre.length + 1 + tail.length := by
    simp
    omega
  have h0 : (pre ++ b :: tail)[pre.length]? = some b := by rw [getAfter0]; simp
  have hstep : decodeStep (pre ++ b :: tail) ⟨pre.length, i, o, a⟩ =
      .next ⟨pre.length + 1, i.set (qoiHash o) o, o, a ++ List.replicate (b % 64 + 1) o⟩ := by
    rw [decodeStep_dispatch h0 (by omega)]
    exact dispatch_run (by omega) (by omega) (by omega)
  exact ⟨_, _, chunk_next (show pre.length < (pre ++ b :: tail).length by omega) hstep⟩

/-! ### Stream-shape helpers for the encode/decode simulation -/

theorem readAt4 (pre X rest pl : List Nat) (k : Nat) (hk : k < X.length) :
    (pre ++ (X ++ rest) ++ pl)[pre.length + k]? = X[k]? := by
  rw [List.append_assoc, getAfter,
    List.getElem?_append_left (by simp; omega), List.getElem?_append_left hk]

theorem readAt40 (pre X rest pl : List Nat) (hk : 0 < X.length) :
    (pre ++ (X ++ rest) ++ pl)[pre.length]? = X[0]? := by
  simpa using readAt4 pre X rest pl 0 hk

theorem lenS (pre X rest : List Nat) :
    (pre ++ (X ++ rest) ++ pill).length = pre.length + X.length + rest.length + 8 := by
  simp [pill]
  omega

theorem reassocS (pre X rest : List Nat) :
    pre ++ (X ++ rest) ++ pill = (pre ++ X) ++ rest ++ pill := by
  simp [List.append_assoc]


/-- One encoded operation (for a pixel that differs from the reference)
is decoded as exactly one loop iteration consuming exactly its bytes;
afterwards the decoder continues into the remaining stream.  The
`hz0` hypothesis rules out a second `0x00` directly after a slot-0
INDEX byte, except when the stream ends there, in which case the
decoder stops at the shifted end-marker window. -/
theorem simOp (c : EncCore) (p : Pixel) (rest : List Nat)
    (hpe : p ≠ c.old)
    (hz0 : qoiHash p = 0 → ∀ b l, rest = b :: l → b ≠ 0)
    (IH : ∀ (pre : List Nat) (ri : Nat), ri = pre.length →
        ∀ (i : List Pixel) (o : Pixel) (acc : List Pixel) (fuel : Nat),
          rest.length + 8 ≤ fuel →
          ∃ v, decodeChunkF (pre ++ rest ++ pill) (pre ++ rest ++ pill).length fuel
              ⟨ri, i, o, acc⟩ = .ok v) :
    ∀ (pre : List Nat) (ri : Nat), ri = pre.length →
      ∀ (i : List Pixel) (o : Pixel) (acc : List Pixel) (fuel : Nat),
        (encOp c p ++ rest).length + 8 ≤ fuel →
        ∃ v, decodeChunkF (pre ++ (encOp c p ++ rest) ++ pill)
            (pre ++ (encOp c p ++ rest) ++ pill).length fuel ⟨ri, i, o, acc⟩ = .ok v := by
  intro pre ri hri i o acc fuel hfuel
  subst hri
  by_cases hI : c.idx.getD (qoiHash p) startPx = p
  · -- INDEX operation
    rw [encOp_index hI] at hfuel ⊢
    obtain ⟨f, rfl⟩ : ∃ f, fuel = f + 1 :=
      ⟨fuel - 1, by simp only [List.length_append, List.length_cons, List.length_nil] at hfuel; omega⟩
    have hq : qoiHash p < 64 := by unfold qoiHash; omega
    have h0 : (pre ++ ([qoiHash p] ++ rest) ++ pill)[pre.length]? = some (qoiHash p) := by
      rw [readAt40 pre _ rest pill (by simp)]
      simp
    by_cases hz : qoiHash p = 0
    · rw [hz] at h0 ⊢
      match hr : rest, hz0 hz with
      | [], _ =>
        have hS : pre ++ ([0] ++ ([] : List Nat)) ++ pill = pre ++ 0 :: pill := by simp
        rw [hS]
        exact ⟨_, stopIndexZeroEnd pre i o acc (f + 1) (by omega)⟩
      | b :: l, hz0' =>
        have hb : b ≠ 0 := hz0' b l rfl
        have h1 : (pre ++ ([0] ++ (b :: l)) ++ pill)[pre.length + 1]? = some b := by
          rw [List.append_assoc, getAfter]
          simp
        have hstep := (@decodeStep_zero_dispatch _ ⟨pre.length, i, o, acc⟩ _ h0 h1 hb).trans
          (dispatch_index (show (0 : Nat) / 64 = 0 by omega))
        rw [chunk_next (lt_length_of_get_some h0) hstep, reassocS pre [0] (b :: l)]
        refine IH (pre ++ [0]) _ (by simp) _ _ _ f ?_
        simp only [List.length_append, List.length_cons, List.length_nil] at hfuel ⊢
        omega
    · have hstep := (@decodeStep_dispatch _ ⟨pre.length, i, o, acc⟩ _ h0 hz).trans
        (dispatch_index (show qoiHash p / 64 = 0 by omega))
      rw [chunk_next (lt_length_of_get_some h0) hstep, reassocS pre [qoiHash p] rest]
      refine IH (pre ++ [qoiHash p]) _ (by simp) _ _ _ f ?_
      simp only [List.length_append, List.length_cons, List.length_nil] at hfuel ⊢
      omega
  · by_cases hd : (p.r : Int) - (c.old.r : Int) % 256 > -3 ∧
        (p.r : Int) - (c.old.r : Int) % 256 < 2 ∧
        (p.g : Int) - (c.old.g : Int) % 256 > -3 ∧ (p.g : Int) - (c.old.g : Int) % 256 < 2 ∧
        (p.b : Int) - (c.old.b : Int) % 256 > -3 ∧ (p.b : Int) - (c.old.b : Int) % 256 < 2 ∧
        p.a = c.old.a
    · -- DIFF operation
      rw [encOp_diff hI hd] at hfuel ⊢
      obtain ⟨d1, d2, d3, d4, d5, d6, d7⟩ := hd
      obtain ⟨f, rfl⟩ : ∃ f, fuel = f + 1 :=
        ⟨fuel - 1, by simp only [List.length_append, List.length_cons, List.length_nil] at hfuel; omega⟩
      have h0 : (pre ++
          ([64 + ((p.r : Int) - (c.old.r : Int) % 256 + 2).toNat * 16 +
              ((p.g : Int) - (c.old.g : Int) % 256 + 2).toNat * 4 +
              ((p.b : Int) - (c.old.b : Int) % 256 + 2).toNat] ++ rest) ++ pill)[pre.length]? =
          some (64 + ((p.r : Int) - (c.old.r : Int) % 256 + 2).toNat * 16 +
              ((p.g : Int) - (c.old.g : Int) % 256 + 2).toNat * 4 +
              ((p.b : Int) - (c.old.b : Int) % 256 + 2).toNat) := by
        rw [readAt40 pre _ rest pill (by simp)]
        simp
      have hstep := (@decodeStep_dispatch _ ⟨pre.length, i, o, acc⟩ _ h0 (by omega)).trans
        (dispatch_diff (by omega))
      rw [chunk_next (lt_length_of_get_some h0) hstep, reassocS]
      refine IH _ _ (by simp) _ _ _ f ?_
      simp only [List.length_append, List.length_cons, List.length_nil] at hfuel ⊢
      omega
    · by_cases hl : ((p.r : Int) - (c.old.r : Int) % 256) - ((p.g : Int) - (c.old.g : Int) % 256) > -9 ∧
          ((p.r : Int) - (c.old.r : Int) % 256) - ((p.g : Int) - (c.old.g : Int) % 256) < 8 ∧
          (p.g : Int) - (c.old.g : Int) % 256 > -33 ∧ (p.g : Int) - (c.old.g : Int) % 256 < 32 ∧
          ((p.b : Int) - (c.old.b : Int) % 256) - ((p.g : Int) - (c.old.g : Int) % 256) > -9 ∧
          ((p.b : Int) - (c.old.b : Int) % 256) - ((p.g : Int) - (c.old.g : Int) % 256) < 8 ∧
          p.a = c.old.a
      · -- LUMA operation
        rw [encOp_luma hI hd hl] at hfuel ⊢
        obtain ⟨l1, l2, l3, l4, l5, l6, l7⟩ := hl
        obtain ⟨f, rfl⟩ : ∃ f, fuel = f + 1 :=
          ⟨fuel - 1, by simp only [List.length_append, List.length_cons, List.length_nil] at hfuel; omega⟩
        have h0 : (pre ++
            ([128 + ((p.g : Int) - (c.old.g : Int) % 256 + 32).toNat,
              (((p.r : Int) - (c.old.r : Int) % 256) - ((p.g : Int) - (c.old.g : Int) % 256) + 8).toNat * 16 +
                (((p.b : Int) - (c.old.b : Int) % 256) - ((p.g : Int) - (c.old.g : Int) % 256) + 8).toNat] ++
              rest) ++ pill)[pre.length]? =
            some (128 + ((p.g : Int) - (c.old.g : Int) % 256 + 32).toNat) := by
          rw [readAt40 pre _ rest pill (by simp)]
          simp
        have h1 : (pre ++
            ([128 + ((p.g : Int) - (c.old.g : Int) % 256 + 32).toNat,
              (((p.r : Int) - (c.old.r : Int) % 256) - ((p.g : Int) - (c.old.g : Int) % 256) + 8).toNat * 16 +
                (((p.b : Int) - (c.old.b : Int) % 256) - ((p.g : Int) - (c.old.g : Int) % 256) + 8).toNat] ++
              rest) ++ pill)[pre.length + 1]? =
            some ((((p.r : Int) - (c.old.r : Int) % 256) - ((p.g : Int) - (c.old.g : Int) % 256) + 8).toNat * 16 +
                (((p.b : Int) - (c.old.b : Int) % 256) - ((p.g : Int) - (c.old.g : Int) % 256) + 8).toNat) := by
          rw [readAt4 pre _ rest pill 1 (by simp)]
          simp
        have hstep := (@decodeStep_dispatch _ ⟨pre.length, i, o, acc⟩ _ h0 (by omega)).trans
          (dispatch_luma (by omega) h1)
        rw [chunk_next (lt_length_of_get_some h0) hstep, reassocS]
        refine IH _ _ (by simp) _ _ _ f ?_
        simp only [List.length_append, List.length_cons, List.length_nil] at hfuel ⊢
        omega
      · by_cases ha : p.a = c.old.a
        · -- RGB operation
          rw [encOp_rgb hI hd hl ha] at hfuel ⊢
          obtain ⟨f, rfl⟩ : ∃ f, fuel = f + 1 :=
            ⟨fuel - 1, by simp only [List.length_append, List.length_cons, List.length_nil] at hfuel; omega⟩
          have h0 : (pre ++ ([254, p.r, p.g, p.b] ++ rest) ++ pill)[pre.length]? = some 254 := by
            rw [readAt40 pre _ rest pill (by simp)]; simp
          have h1 : (pre ++ ([254, p.r, p.g, p.b] ++ rest) ++ pill)[pre.length + 1]? = some p.r := by
            rw [readAt4 pre _ rest pill 1 (by simp)]; simp
          have h2 : (pre ++ ([254, p.r, p.g, p.b] ++ rest) ++ pill)[pre.length + 2]? = some p.g := by
            rw [readAt4 pre _ rest pill 2 (by simp)]; simp
          have h3 : (pre ++ ([254, p.r, p.g, p.b] ++ rest) ++ pill)[pre.length + 3]? = some p.b := by
            rw [readAt4 pre _ rest pill 3 (by simp)]; simp
          have hstep := (@decodeStep_dispatch _ ⟨pre.length, i, o, acc⟩ _ h0 (by omega)).trans
            (dispatch_rgb h1 h2 h3)
          rw [chunk_next (lt_length_of_get_some h0) hstep, reassocS]
          refine IH _ _ (by simp) _ _ _ f ?_
          simp only [List.length_append, List.length_cons, List.length_nil] at hfuel ⊢
          omega
        · -- RGBA operation
          rw [encOp_rgba hI ha] at hfuel ⊢
          obtain ⟨f, rfl⟩ : ∃ f, fuel = f + 1 :=
            ⟨fuel - 1, by simp only [List.length_append, List.length_cons, List.length_nil] at hfuel; omega⟩
          have h0 : (pre ++ ([255, p.r, p.g, p.b, p.a] ++ rest) ++ pill)[pre.length]? = some 255 := by
            rw [readAt40 pre _ rest pill (by simp)]; simp
          have h1 : (pre ++ ([255, p.r, p.g, p.b, p.a] ++ rest) ++ pill)[pre.length + 1]? = some p.r := by
            rw [readAt4 pre _ rest pill 1 (by simp)]; simp
          have h2 : (pre ++ ([255, p.r, p.g, p.b, p.a] ++ rest) ++ pill)[pre.length + 2]? = some p.g := by
            rw [readAt4 pre _ rest pill 2 (by simp)]; simp
          have h3 : (pre ++ ([255, p.r, p.g, p.b, p.a] ++ rest) ++ pill)[pre.length + 3]? = some p.b := by
            rw [readAt4 pre _ rest pill 3 (by simp)]; simp
          have h4 : (pre ++ ([255, p.r, p.g, p.b, p.a] ++ rest) ++ pill)[pre.length + 4]? = some p.a := by
            rw [readAt4 pre _ rest pill 4 (by simp)]; simp
          have hstep := (@decodeStep_dispatch _ ⟨pre.length, i, o, acc⟩ _ h0 (by omega)).trans
            (dispatch_rgba h1 h2 h3 h4)
          rw [chunk_next (lt_length_of_get_some h0) hstep, reassocS]
          refine IH _ _ (by simp) _ _ _ f ?_
          simp only [List.length_append, List.length_cons, List.length_nil] at hfuel ⊢
          omega

theorem bytesFrom_cons_bump {c : EncCore} {p : Pixel} (ps : List Pixel)
    (h : p = c.old) (h62 : c.run + 1 ≠ 62) :
    bytesFrom c (p :: ps) = bytesFrom ⟨c.idx, c.run + 1, c.old⟩ ps := by
  rw [bytesFrom_cons, encStep_bump h h62]
  simp

theorem bytesFrom_cons_flush62 {c : EncCore} {p : Pixel} (ps : List Pixel)
    (h : p = c.old) (h62 : c.run + 1 = 62) :
    bytesFrom c (p :: ps) = 253 :: bytesFrom ⟨c.idx, 0, c.old⟩ ps := by
  rw [bytesFrom_cons, encStep_flush62 h h62]
  simp

theorem bytesFrom_cons_op {c : EncCore} {p : Pixel} (ps : List Pixel) (h : p ≠ c.old) :
    bytesFrom c (p :: ps) =
      (encFlush c ++ encOp c p) ++ bytesFrom ⟨c.idx.set (qoiHash p) p, 0, p⟩ ps := by
  rw [bytesFrom_cons, encStep_op h]

/-- Decoding any stream the encoder can still produce succeeds: from a
well-formed encoder core state, the body bytes followed by the end
marker are consumed without error, whatever the decoder-side state is. -/
theorem simOk : ∀ (ps : List Pixel) (c : EncCore), c.idx.length = 64 → c.run ≤ 61 →
    ∀ (pre : List Nat) (ri : Nat), ri = pre.length →
      ∀ (i : List Pixel) (o : Pixel) (acc : List Pixel) (fuel : Nat),
        (bytesFrom c ps).length + 8 ≤ fuel →
        ∃ v, decodeChunkF (pre ++ bytesFrom c ps ++ pill)
            (pre ++ bytesFrom c ps ++ pill).length fuel ⟨ri, i, o, acc⟩ = .ok v := by
  intro ps
  induction ps with
  | nil =>
    intro c hlen hrun pre ri hri i o acc fuel hfuel
    subst hri
    rw [bytesFrom_nil] at hfuel ⊢
    rcases Nat.eq_zero_or_pos c.run with h0 | hpos
    · rw [encFlush, if_neg (by omega)] at hfuel ⊢
      simp only [List.append_nil]
      exact ⟨_, stopAtPill pre i o acc fuel (by simp at hfuel; omega)⟩
    · rw [encFlush, if_pos hpos] at hfuel ⊢
      obtain ⟨f, rfl⟩ : ∃ f, fuel = f + 1 := ⟨fuel - 1, by simp at hfuel; omega⟩
      have hS : pre ++ [192 + (c.run - 1)] ++ pill = pre ++ (192 + (c.run - 1)) :: pill := by
        simp
      rw [hS]
      obtain ⟨i2, a2, hstep⟩ := runByteStep (192 + (c.run - 1)) (by omega) (by omega) pre pill i o acc f
      rw [hstep]
      have hS2 : pre ++ (192 + (c.run - 1)) :: pill = (pre ++ [192 + (c.run - 1)]) ++ pill := by
        simp
      rw [hS2, show pre.length + 1 = (pre ++ [192 + (c.run - 1)]).length by simp]
      exact ⟨_, stopAtPill _ i2 o a2 f (by simp at hfuel; omega)⟩
  | cons p ps ih =>
    intro c hlen hrun pre ri hri i o acc fuel hfuel
    subst hri
    by_cases hpe : p = c.old
    · by_cases h62 : c.run + 1 = 62
      · rw [bytesFrom_cons_flush62 ps hpe h62] at hfuel ⊢
        obtain ⟨f, rfl⟩ : ∃ f, fuel = f + 1 := ⟨fuel - 1, by simp at hfuel; omega⟩
        have hS : pre ++ 253 :: bytesFrom ⟨c.idx, 0, c.old⟩ ps ++ pill =
            pre ++ 253 :: (bytesFrom ⟨c.idx, 0, c.old⟩ ps ++ pill) := by
          simp
        rw [hS]
        obtain ⟨i2, a2, hstep⟩ :=
          runByteStep 253 (by omega) (by omega) pre (bytesFrom ⟨c.idx, 0, c.old⟩ ps ++ pill) i o acc f
        rw [hstep]
        have hS2 : pre ++ 253 :: (bytesFrom ⟨c.idx, 0, c.old⟩ ps ++ pill) =
            (pre ++ [253]) ++ bytesFrom ⟨c.idx, 0, c.old⟩ ps ++ pill := by
          simp
        rw [hS2]
        exact ih ⟨c.idx, 0, c.old⟩ hlen (by show (0 : Nat) ≤ 61; omega) (pre ++ [253]) _ (by simp) i2 o a2 f
          (by simp at hfuel ⊢; omega)
      · rw [bytesFrom_cons_bump ps hpe h62] at hfuel ⊢
        exact ih ⟨c.idx, c.run + 1, c.old⟩ hlen (by show c.run + 1 ≤ 61; omega) pre _ rfl i o acc fuel hfuel
    · rw [bytesFrom_cons_op ps hpe] at hfuel ⊢
      have hz0 : qoiHash p = 0 →
          ∀ b l, bytesFrom ⟨c.idx.set (qoiHash p) p, 0, p⟩ ps = b :: l → b ≠ 0 := by
        intro hz b l hb
        refine bytesFrom_head_ne_zero ps ⟨c.idx.set (qoiHash p) p, 0, p⟩ ?_ b l hb
        show (c.idx.set (qoiHash p) p).getD 0 startPx = p
        rw [← hz]
        exact getD_set_self _ _ _ _ (by rw [hlen]; unfold qoiHash; omega)
      have hOp := simOp c p (bytesFrom ⟨c.idx.set (qoiHash p) p, 0, p⟩ ps) hpe hz0
        (fun pre2 ri2 hri2 i2 o2 a2 f2 hf2 =>
          ih ⟨c.idx.set (qoiHash p) p, 0, p⟩
            (by show (c.idx.set (qoiHash p) p).length = 64; simp [hlen])
            (by show (0 : Nat) ≤ 61; omega) pre2 ri2 hri2 i2 o2 a2 f2 hf2)
      rcases Nat.eq_zero_or_pos c.run with hz | hpos
      · rw [encFlush, if_neg (by omega)] at hfuel ⊢
        simp only [List.nil_append] at hfuel ⊢
        exact hOp pre _ rfl i o acc fuel hfuel
      · rw [encFlush, if_pos hpos] at hfuel ⊢
        obtain ⟨f, rfl⟩ : ∃ f, fuel = f + 1 := ⟨fuel - 1, by simp at hfuel; omega⟩
        have hS : pre ++ (([192 + (c.run - 1)] ++ encOp c p) ++
              bytesFrom ⟨c.idx.set (qoiHash p) p, 0, p⟩ ps) ++ pill =
            pre ++ (192 + (c.run - 1)) ::
              ((encOp c p ++ bytesFrom ⟨c.idx.set (qoiHash p) p, 0, p⟩ ps) ++ pill) := by
          simp [List.append_assoc]
        rw [hS]
        obtain ⟨i2, a2, hstep⟩ := runByteStep (192 + (c.run - 1)) (by omega) (by omega) pre
          ((encOp c p ++ bytesFrom ⟨c.idx.set (qoiHash p) p, 0, p⟩ ps) ++ pill) i o acc f
        rw [hstep]
        have hS2 : pre ++ (192 + (c.run - 1)) ::
              ((encOp c p ++ bytesFrom ⟨c.idx.set (qoiHash p) p, 0, p⟩ ps) ++ pill) =
            (pre ++ [192 + (c.run - 1)]) ++
              (encOp c p ++ bytesFrom ⟨c.idx.set (qoiHash p) p, 0, p⟩ ps) ++ pill := by
          simp [List.append_assoc]
        rw [hS2]
        exact hOp (pre ++ [192 + (c.run - 1)]) _ (by simp) i2 o a2 f
          (by simp at hfuel ⊢; omega)

/-- Decoding a stream produced by `encode` always returns a result
(never an error of any kind): the body is consumed operation by
operation and the end marker (or the shifted end-marker window) stops
the loop in bounds. -/
theorem decode_encode_isOk (data : List Nat) (width height colorspace : Nat) :
    ∃ v, decode (encode data width height colorspace) = .ok v := by
  have hpre : (magic ++ be32 width ++ be32 height ++ [4, colorspace % 256] : List Nat).length = 14 := by
    simp [magic, be32]
  obtain ⟨v, hv⟩ := simOk (toPixels data) ⟨idx0, 0, startPx⟩
    (by show idx0.length = 64; simp [idx0])
    (by show (0 : Nat) ≤ 61; omega)
    (magic ++ be32 width ++ be32 height ++ [4, colorspace % 256]) 14 hpre.symm
    idx0 startPx []
    ((magic ++ be32 width ++ be32 height ++ [4, colorspace % 256]
        ++ bytesFrom ⟨idx0, 0, startPx⟩ (toPixels data) ++ pill).length + 1)
    (by simp only [List.length_append, hpre]; simp [pill]; omega)
  rw [show encode data width height colorspace =
    magic ++ be32 width ++ be32 height ++ [4, colorspace % 256]
      ++ bytesFrom ⟨idx0, 0, startPx⟩ (toPixels data) ++ pill from rfl]
  rw [decode,
    if_neg (by simp only [List.length_append, hpre]; simp [pill]; omega), hv]
  exact ⟨_, rfl⟩

theorem dispatch_ne_malformed (data : List Nat) (s : DecState) (byte : Nat) :
    decodeDispatch data s byte ≠ .err .malformed := by
  unfold decodeDispatch pushPixel
  repeat' split
  all_goals simp

theorem decodeStep_zero_oob {data : List Nat} {s : DecState}
    (h0 : data[s.ri]? = some 0) (h1 : data[s.ri + 1]? = none) :
    decodeStep data s = .err .oob := by
  simp [decodeStep, h0, h1]

theorem decodeStep_zz {data : List Nat} {s : DecState}
    (h0 : data[s.ri]? = some 0) (h1 : data[s.ri + 1]? = some 0) :
    decodeStep data s =
      if s.ri + 8 ≤ data.length then
        if window8 data s.ri = pill then .stop
        else if s.ri + 9 ≤ data.length then
          if window8 data (s.ri + 1) = pill then .stop else .err .malformed
        else .err .oob
      else .err .oob := by
  simp [decodeStep, h0, h1]

/-- Lines 149-165 of the source characterised: one loop iteration
raises `ValueError` exactly when two consecutive `0x00` bytes are read
and both candidate end-marker windows fit in the buffer and both differ
from the end marker. -/
theorem decodeStep_malformed_iff (data : List Nat) (s : DecState) :
    decodeStep data s = .err .malformed ↔ BadAt data s.ri := by
  constructor
  · intro h
    cases hg : data[s.ri]? with
    | none => rw [decodeStep_oob hg] at h; cases h
    | some byte =>
      by_cases hbz : byte = 0
      · subst hbz
        cases hg1 : data[s.ri + 1]? with
        | none => rw [decodeStep_zero_oob hg hg1] at h; cases h
        | some nb =>
          by_cases hnb : nb = 0
          · subst hnb
            rw [decodeStep_zz hg hg1] at h
            by_cases h8 : s.ri + 8 ≤ data.length
            · rw [if_pos h8] at h
              by_cases hw1 : window8 data s.ri = pill
              · rw [if_pos hw1] at h; cases h
              · rw [if_neg hw1] at h
                by_cases h9 : s.ri + 9 ≤ data.length
                · rw [if_pos h9] at h
                  by_cases hw2 : window8 data (s.ri + 1) = pill
                  · rw [if_pos hw2] at h; cases h
                  · rw [if_neg hw2] at h
                    exact ⟨hg, hg1, h9, hw1, hw2⟩
                · rw [if_neg h9] at h; cases h
            · rw [if_neg h8] at h; cases h
          · rw [decodeStep_zero_dispatch hg hg1 hnb] at h
            exact absurd h (dispatch_ne_malformed data s 0)
      · rw [decodeStep_dispatch hg hbz] at h
        exact absurd h (dispatch_ne_malformed data s byte)
  · rintro ⟨h0, h1, h9, hw1, hw2⟩
    rw [decodeStep_zz h0 h1, if_pos (by omega : s.ri + 8 ≤ data.length), if_neg hw1,
      if_pos h9, if_neg hw2]

theorem chunk_malformed_reach {data : List Nat} {ce : Nat} :
    ∀ (fuel : Nat) (s : DecState),
      decodeChunkF data ce fuel s = .error .malformed →
      ∃ t, DecReach data ce s t ∧ t.ri < ce ∧ decodeStep data t = .err .malformed := by
  intro fuel
  induction fuel with
  | zero =>
    intro s h
    rw [decodeChunkF] at h
    split at h <;> simp at h
  | succ f ihf =>
    intro s h
    rw [decodeChunkF] at h
    split at h
    · rename_i hlt
      cases hs : decodeStep data s with
      | next t =>
        rw [hs] at h
        obtain ⟨u, hru, hlt2, hsu⟩ := ihf t h
        exact ⟨u, .head hlt hs hru, hlt2, hsu⟩
      | stop => rw [hs] at h; simp at h
      | err e =>
        rw [hs] at h
        simp only [Except.error.injEq] at h
        rw [h] at hs
        exact ⟨s, .refl s, hlt, hs⟩
    · simp at h

theorem reach_malformed_chunk {data : List Nat} {ce : Nat} {s t : DecState}
    (hr : DecReach data ce s t) :
    t.ri < ce → decodeStep data t = .err .malformed →
    ∀ fuel, ce - s.ri ≤ fuel → decodeChunkF data ce fuel s = .error .malformed := by
  induction hr with
  | refl s =>
    intro hlt hstep fuel hf
    obtain ⟨f, rfl⟩ : ∃ f, fuel = f + 1 := ⟨fuel - 1, by omega⟩
    exact chunk_err hlt hstep
  | head hlt0 hstep0 hr ih =>
    intro hlt hstep fuel hf
    have hri := decodeStep_next_ri hstep0
    obtain ⟨f, rfl⟩ : ∃ f, fuel = f + 1 := ⟨fuel - 1, by omega⟩
    rw [chunk_next hlt0 hstep0]
    exact ih hlt hstep f (by omega)

theorem qoiHash_lt (p : Pixel) : qoiHash p < 64 := by
  unfold qoiHash
  omega

theorem indexAfter_append (idx : List Pixel) (l1 l2 : List Pixel) :
    indexAfter idx (l1 ++ l2) = indexAfter (indexAfter idx l1) l2 :=
  List.foldl_append _ _ _ _

theorem indexAfter_replicate (n : Nat) (idx : List Pixel) (x : Pixel) :
    indexAfter idx (List.replicate (n + 1) x) = idx.set (qoiHash x) x := by
  induction n generalizing idx with
  | zero => rfl
  | succ m ih =>
    rw [List.replicate_succ]
    show indexAfter (idx.set (qoiHash x) x) (List.replicate (m + 1) x) = idx.set (qoiHash x) x
    rw [ih, List.set_set]

/-- The encoder's recent-color index after processing a pixel list is the
plain hash-slot fold over those pixels: skipping run pixels does not
change the index because a run pixel is already stored at its slot. -/
theorem encChunk_idx : ∀ (ps : List Pixel) (c : EncCore),
    c.idx.length = 64 → c.idx.getD (qoiHash c.old) startPx = c.old →
    (encChunk c ps).1.idx = indexAfter c.idx ps ∧
      (encChunk c ps).1.idx.length = 64 ∧
      (encChunk c ps).1.idx.getD (qoiHash (encChunk c ps).1.old) startPx =
        (encChunk c ps).1.old := by
  intro ps
  induction ps with
  | nil => exact fun c hlen hinv => ⟨rfl, hlen, hinv⟩
  | cons p ps ih =>
    intro c hlen hinv
    rw [encChunk_cons]
    by_cases hpe : p = c.old
    · have hset : c.idx.set (qoiHash p) p = c.idx := by
        rw [hpe]
        exact set_of_getD _ _ _ _ (by rw [hlen]; exact qoiHash_lt c.old) hinv
      have hAfter : indexAfter c.idx (p :: ps) = indexAfter c.idx ps := by
        show indexAfter (c.idx.set (qoiHash p) p) ps = indexAfter c.idx ps
        rw [hset]
      by_cases h62 : c.run + 1 = 62
      · rw [encStep_flush62 hpe h62, hAfter]
        exact ih ⟨c.idx, 0, c.old⟩ hlen hinv
      · rw [encStep_bump hpe h62, hAfter]
        exact ih ⟨c.idx, c.run + 1, c.old⟩ hlen hinv
    · rw [encStep_op hpe]
      have hlen2 : (c.idx.set (qoiHash p) p).length = 64 := by
        rw [List.length_set, hlen]
      have hinv2 : (c.idx.set (qoiHash p) p).getD (qoiHash p) startPx = p :=
        getD_set_self _ _ _ _ (by rw [hlen]; exact qoiHash_lt p)
      exact ih ⟨c.idx.set (qoiHash p) p, 0, p⟩ hlen2 hinv2

/-- One decoder iteration appends some pixels to the output and performs
the corresponding hash-slot index updates. -/
theorem decodeStep_idx {data : List Nat} {s t : DecState}
    (h : decodeStep data s = .next t) :
    ∃ δ, t.acc = s.acc ++ δ ∧ t.idx = indexAfter s.idx δ := by
  unfold decodeStep decodeDispatch pushPixel at h
  repeat' split at h
  all_goals try exact StepRes.noConfusion h
  all_goals cases h
  all_goals first
    | exact ⟨_, rfl, rfl⟩
    | exact ⟨_, rfl, (indexAfter_replicate _ _ _).symm⟩

/-- Along any run of decoder iterations, the index equals the hash-slot
fold of the pixels emitted meanwhile. -/
theorem reach_idx {data : List Nat} {ce : Nat} {s t : DecState}
    (hr : DecReach data ce s t) :
    ∃ δ, t.acc = s.acc ++ δ ∧ t.idx = indexAfter s.idx δ := by
  induction hr with
  | refl s => exact ⟨[], by simp, rfl⟩
  | head hlt0 hstep0 hr ih =>
    obtain ⟨ν, hacc1, hidx1⟩ := decodeStep_idx hstep0
    obtain ⟨δ, hacc2, hidx2⟩ := ih
    exact ⟨ν ++ δ, by rw [hacc2, hacc1, List.append_assoc],
      by rw [hidx2, hidx1, indexAfter_append]⟩

theorem decodeStep_congr {d1 d2 : List Nat} (hlen : d1.length = d2.length)
    (hdrop : d1.drop 14 = d2.drop 14) (s : DecState) (hri : 14 ≤ s.ri) :
    decodeStep d1 s = decodeStep d2 s := by
  have hget : ∀ n, 14 ≤ n → d1[n]? = d2[n]? := by
    intro n hn
    have h1 : d1[n]? = (d1.drop 14)[n - 14]? := by
      rw [List.getElem?_drop]
      congr 1
      omega
    have h2 : d2[n]? = (d2.drop 14)[n - 14]? := by
      rw [List.getElem?_drop]
      congr 1
      omega
    rw [h1, h2, hdrop]
  have hdropn : ∀ n, 14 ≤ n → d1.drop n = d2.drop n := by
    intro n hn
    have h1 : d1.drop n = (d1.drop 14).drop (n - 14) := by
      rw [List.drop_drop]
      congr 1
      omega
    have h2 : d2.drop n = (d2.drop 14).drop (n - 14) := by
      rw [List.drop_drop]
      congr 1
      omega
    rw [h1, h2, hdrop]
  have e0 := hget s.ri hri
  have e1 := hget (s.ri + 1) (by omega)
  have e2 := hget (s.ri + 2) (by omega)
  have e3 := hget (s.ri + 3) (by omega)
  have e4 := hget (s.ri + 4) (by omega)
  have w1 := hdropn s.ri hri
  have w2 := hdropn (s.ri + 1) (by omega)
  simp only [decodeStep, decodeDispatch, window8, e0, e1, e2, e3, e4, w1, w2, hlen]

theorem chunk_congr {d1 d2 : List Nat} (hlen : d1.length = d2.length)
    (hdrop : d1.drop 14 = d2.drop 14) (ce : Nat) :
    ∀ (fuel : Nat) (s : DecState), 14 ≤ s.ri →
      decodeChunkF d1 ce fuel s = decodeChunkF d2 ce fuel s := by
  intro fuel
  induction fuel with
  | zero => intro s _; simp [decodeChunkF]
  | succ f ih =>
    intro s hri
    rw [decodeChunkF, decodeChunkF]
    by_cases hlt : s.ri < ce
    · rw [if_pos hlt, if_pos hlt, decodeStep_congr hlen hdrop s hri]
      cases hs : decodeStep d2 s with
      | next t =>
        have ht := decodeStep_next_ri ((decodeStep_congr hlen hdrop s hri).trans hs)
        exact ih t (by omega)
      | stop => rfl
      | err e => rfl
    · rw [if_neg hlt, if_neg hlt]

theorem dispatch_ne_assertFail {data : List Nat} {s : DecState} {byte : Nat}
    (hb : byte < 256) : decodeDispatch data s byte ≠ .err .assertFail := by
  unfold decodeDispatch pushPixel
  repeat' split
  all_goals try simp
  all_goals omega

theorem decodeStep_ne_assertFail (data : List Nat) (s : DecState)
    (hdata : ∀ x ∈ data, x < 256) : decodeStep data s ≠ .err .assertFail := by
  cases hg : data[s.ri]? with
  | none => rw [decodeStep_oob hg]; simp
  | some byte =>
    have hb : byte < 256 := hdata byte (List.get?_mem ((List.get?_eq_getElem? _ _).trans hg))
    by_cases hbz : byte = 0
    · subst hbz
      cases hg1 : data[s.ri + 1]? with
      | none => rw [decodeStep_zero_oob hg hg1]; simp
      | some nb =>
        by_cases hnb : nb = 0
        · subst hnb
          rw [decodeStep_zz hg hg1]
          repeat' split
          all_goals simp
        · rw [decodeStep_zero_dispatch hg hg1 hnb]
          exact dispatch_ne_assertFail hb
    · rw [decodeStep_dispatch hg hbz]
      exact dispatch_ne_assertFail hb

theorem encStep_bytes_op {c : EncCore} {p : Pixel} (h : p ≠ c.old) :
    (encStep c p).2 = encFlush c ++ encOp c p := by
  rw [encStep_op h]

/-! ### Claim theorems -/

/-- C1 (code_bug evaluation): the round trip fails on a valid 3x1 RGBA
buffer whose last pixel is emitted as a slot-0 INDEX operation: the
decoder's shifted end-marker check (line 162 of the source) matches the
end marker one byte early and the final pixel is dropped, so
`decode (encode P 3 1)` returns only the first two pixels of `P`. -/
theorem c1_roundtrip_fails_on_trailing_index_zero :
    3 * 1 * 4 = ([0, 0, 0, 64, 1, 1, 1, 64, 0, 0, 0, 64] : List Nat).length ∧
    decode (encode [0, 0, 0, 64, 1, 1, 1, 64, 0, 0, 0, 64] 3 1 0) =
      .ok [0, 0, 0, 64, 1, 1, 1, 64] ∧
    ([0, 0, 0, 64, 1, 1, 1, 64] : List Nat) ≠ [0, 0, 0, 64, 1, 1, 1, 64, 0, 0, 0, 64] := by
  decide

/-- C2 (confirmed): whenever the decoder has emitted exactly the pixel
sequence `ps` (in any stream, after any number of loop iterations), its
recent-color index is bit-identical to the encoder's recent-color index
after processing the same pixels `ps`. -/
theorem c2_index_sync (data : List Nat) (ce : Nat) (t : DecState) (ps : List Pixel)
    (hr : DecReach data ce ⟨14, idx0, startPx, []⟩ t) (hacc : t.acc = ps) :
    t.idx = (encChunk ⟨idx0, 0, startPx⟩ ps).1.idx := by
  obtain ⟨δ, hacc2, hidx⟩ := reach_idx hr
  have hδ : δ = ps := by
    rw [hacc] at hacc2
    simpa using hacc2.symm
  have henc := (encChunk_idx ps ⟨idx0, 0, startPx⟩ (by simp [idx0]) (by decide)).1
  rw [hidx, hδ, henc]

/-- Witness for C2 at a concrete stream: one LUMA operation decodes the
pixel (1,2,3,255); the decoder's index afterwards equals the encoder's
index after processing that one pixel. -/
theorem c2_index_sync_witness :
    idx0.set 23 ⟨1, 2, 3, 255⟩ =
      (encChunk ⟨idx0, 0, startPx⟩ [⟨1, 2, 3, 255⟩]).1.idx :=
  c2_index_sync (List.replicate 14 0 ++ [162, 121]) 16
    ⟨16, idx0.set 23 ⟨1, 2, 3, 255⟩, ⟨1, 2, 3, 255⟩, [⟨1, 2, 3, 255⟩]⟩
    [⟨1, 2, 3, 255⟩]
    (DecReach.head (by decide) (by decide)
      (DecReach.refl ⟨16, idx0.set 23 ⟨1, 2, 3, 255⟩, ⟨1, 2, 3, 255⟩, [⟨1, 2, 3, 255⟩]⟩))
    rfl

/-- C3 (counterexample): two encoded streams that differ only in their
declared width/height decode to identical results, so the result of
`decode` cannot contain the width, height or colorspace; the source
parses the header and discards it, returning only the pixel buffer. -/
theorem c3_counterexample :
    decode (encode [1, 2, 3, 255] 1 2 0) = decode (encode [1, 2, 3, 255] 2 1 0) ∧
    encode [1, 2, 3, 255] 1 2 0 ≠ encode [1, 2, 3, 255] 2 1 0 := by
  decide

/-- C3 (amended): `decode` returns only the recovered flat RGBA pixel
buffer; the header fields (magic, width, height, channels, colorspace,
bytes 0..13) are parsed but do not influence the result: any two streams
of the same length agreeing from byte 14 on decode identically. -/
theorem c3_header_not_returned (d1 d2 : List Nat)
    (hlen : d1.length = d2.length) (hdrop : d1.drop 14 = d2.drop 14) :
    decode d1 = decode d2 := by
  unfold decode
  rw [← hlen]
  by_cases h14 : d1.length < 14
  · rw [if_pos h14, if_pos h14]
  · rw [if_neg h14, if_neg h14,
      chunk_congr hlen hdrop d1.length (d1.length + 1) ⟨14, idx0, startPx, []⟩ (Nat.le_refl 14)]

/-- Witness for C3 at concrete streams with different headers. -/
theorem c3_header_not_returned_witness :
    decode (encode [1, 2, 3, 255] 1 2 0) = decode (encode [1, 2, 3, 255] 2 1 0) :=
  c3_header_not_returned _ _ (by decide) (by decide)

/-- C4 (counterexample): a 14-byte stream (header only, no end marker)
is exhausted before any end marker is found, yet `decode` returns an
empty pixel buffer without raising `MalformedStream`. -/
theorem c4_counterexample :
    decode (List.replicate 14 0) = .ok [] ∧
    decode (List.replicate 14 0) ≠ .error .malformed := by
  decide

/-- C4 (amended): `decode` raises `MalformedStream` (the `ValueError` of
the source) if and only if the decoding loop reaches a position holding
two consecutive `0x00` bytes whose two candidate 8-byte end-marker
windows both lie within the stream and both differ from the end marker.
Exhausting the stream without finding an end marker returns normally
(see the counterexample), and windows that would run past the end of
the stream produce an out-of-bounds read error instead. -/
theorem c4_malformed_iff (data : List Nat) :
    decode data = .error .malformed ↔
      ∃ t, DecReach data data.length ⟨14, idx0, startPx, []⟩ t ∧ BadAt data t.ri := by
  by_cases h14 : data.length < 14
  · rw [decode, if_pos h14]
    constructor
    · intro h
      cases h
    · rintro ⟨t, hr, hb⟩
      exfalso
      cases hr with
      | refl => exact absurd (lt_length_of_get_some hb.1) (show ¬(14 < data.length) by omega)
      | head h1 _ _ => exact absurd h1 (show ¬(14 < data.length) by omega)
  · rw [decode, if_neg h14]
    constructor
    · intro h
      have hchunk : decodeChunkF data data.length (data.length + 1)
          ⟨14, idx0, startPx, []⟩ = .error .malformed := by
        cases hc : decodeChunkF data data.length (data.length + 1) ⟨14, idx0, startPx, []⟩ with
        | ok r => rw [hc] at h; cases h
        | error e =>
          rw [hc] at h
          cases h
          rfl
      obtain ⟨t, hr, hlt, hstep⟩ :=
        chunk_malformed_reach (data.length + 1) ⟨14, idx0, startPx, []⟩ hchunk
      exact ⟨t, hr, (decodeStep_malformed_iff data t).mp hstep⟩
    · rintro ⟨t, hr, hb⟩
      have hlt : t.ri < data.length := lt_length_of_get_some hb.1
      have hstep := (decodeStep_malformed_iff data t).mpr hb
      have hchunk := reach_malformed_chunk hr hlt hstep (data.length + 1)
        (show data.length - 14 ≤ data.length + 1 by omega)
      rw [hchunk]

/-- C5 (counterexample): for the pixel (0,5,5,255) after reference
(255,5,5,255), the modulo-256 signed red delta is `(0 - 255) % 256 = 1`,
inside [-2, 1], the alpha is unchanged and the pixel does not match its
index slot, yet the encoder emits an RGB operation (tag byte 254), not a
DIFF: the source computes `rgba[0] - old_rgba[0] % 256`, a plain
difference of `-255`, which fails the DIFF window. -/
theorem c5_counterexample :
    bytesFrom ⟨idx0, 0, startPx⟩ (toPixels [255, 5, 5, 255, 0, 5, 5, 255]) =
      [254, 255, 5, 5, 254, 0, 5, 5] ∧
    ((0 : Int) - 255) % 256 = 1 ∧
    (254 : Nat) / 64 ≠ 1 := by
  decide

/-- C5 (amended): when the plain (non-wrapping) per-channel deltas
`rgba[k] - (old_rgba[k] % 256)` all lie in [-2, 1], the alpha is
unchanged, and the pixel does not match its index slot, the encoder
emits a DIFF operation: one byte with tag bits 01 and 2-bit fields
(dR+2), (dG+2), (dB+2), after any pending run flush. -/
theorem c5_diff_emitted (c : EncCore) (p : Pixel)
    (hni : c.idx.getD (qoiHash p) startPx ≠ p) (hpe : p ≠ c.old)
    (h1 : (p.r : Int) - (c.old.r : Int) % 256 > -3)
    (h2 : (p.r : Int) - (c.old.r : Int) % 256 < 2)
    (h3 : (p.g : Int) - (c.old.g : Int) % 256 > -3)
    (h4 : (p.g : Int) - (c.old.g : Int) % 256 < 2)
    (h5 : (p.b : Int) - (c.old.b : Int) % 256 > -3)
    (h6 : (p.b : Int) - (c.old.b : Int) % 256 < 2)
    (ha : p.a = c.old.a) :
    ∃ byte, (encStep c p).2 = encFlush c ++ [byte] ∧ byte / 64 = 1 ∧
      byte / 16 % 4 = ((p.r : Int) - (c.old.r : Int) % 256 + 2).toNat ∧
      byte / 4 % 4 = ((p.g : Int) - (c.old.g : Int) % 256 + 2).toNat ∧
      byte % 4 = ((p.b : Int) - (c.old.b : Int) % 256 + 2).toNat := by
  rw [encStep_bytes_op hpe, encOp_diff hni ⟨h1, h2, h3, h4, h5, h6, ha⟩]
  exact ⟨_, rfl, by omega, by omega, by omega, by omega⟩

/-- Witness for C5: the pixel (1,1,1,255) after the starting reference
pixel is emitted as a DIFF byte. -/
theorem c5_diff_emitted_witness :
    ∃ byte, (encStep ⟨idx0, 0, startPx⟩ ⟨1, 1, 1, 255⟩).2 =
        encFlush ⟨idx0, 0, startPx⟩ ++ [byte] ∧ byte / 64 = 1 ∧
      byte / 16 % 4 = ((1 : Int) - (0 : Int) % 256 + 2).toNat ∧
      byte / 4 % 4 = ((1 : Int) - (0 : Int) % 256 + 2).toNat ∧
      byte % 4 = ((1 : Int) - (0 : Int) % 256 + 2).toNat :=
  c5_diff_emitted ⟨idx0, 0, startPx⟩ ⟨1, 1, 1, 255⟩ (by decide) (by decide)
    (by decide) (by decide) (by decide) (by decide) (by decide) (by decide) rfl

/-- C6 (confirmed): a literal `0x00` body byte whose following byte is
non-zero is decoded as a slot-0 INDEX operation emitting the slot-0
pixel and consuming one byte; it is never treated as end-of-stream. -/
theorem c6_index_zero_not_eos (data : List Nat) (s : DecState) (b : Nat)
    (h0 : data[s.ri]? = some 0) (h1 : data[s.ri + 1]? = some b) (hb : b ≠ 0) :
    decodeStep data s =
      .next ⟨s.ri + 1,
        s.idx.set (qoiHash (s.idx.getD 0 startPx)) (s.idx.getD 0 startPx),
        s.idx.getD 0 startPx, s.acc ++ [s.idx.getD 0 startPx]⟩ ∧
    decodeStep data s ≠ .stop := by
  have h := (decodeStep_zero_dispatch h0 h1 hb).trans
    (dispatch_index (show (0 : Nat) / 64 = 0 by omega))
  refine ⟨h, ?_⟩
  rw [h]
  simp [pushPixel]

/-- Witness for C6 at a concrete stream. -/
theorem c6_index_zero_not_eos_witness :
    decodeStep (List.replicate 14 0 ++ [0, 5]) ⟨14, idx0, startPx, []⟩ =
      .next ⟨15,
        idx0.set (qoiHash (idx0.getD 0 startPx)) (idx0.getD 0 startPx),
        idx0.getD 0 startPx, [] ++ [idx0.getD 0 startPx]⟩ ∧
    decodeStep (List.replicate 14 0 ++ [0, 5]) ⟨14, idx0, startPx, []⟩ ≠ .stop :=
  c6_index_zero_not_eos (List.replicate 14 0 ++ [0, 5]) ⟨14, idx0, startPx, []⟩ 5
    (by decide) (by decide) (by decide)

/-- C7 (counterexample): encoding the 1x3 image
[(1,2,3,255),(1,2,3,255),(4,5,6,255)] does not produce a body of one
RUN(count 2) operation followed by one non-RUN operation: the body is
[162, 121, 192, 163, 136] and its first operation byte 162 is
LUMA-tagged (top bits 10), not RUN-tagged. -/
theorem c7_counterexample :
    bytesFrom ⟨idx0, 0, startPx⟩ (toPixels [1, 2, 3, 255, 1, 2, 3, 255, 4, 5, 6, 255]) =
      [162, 121, 192, 163, 136] ∧
    (162 : Nat) / 64 ≠ 3 := by
  decide

/-- C7 (amended): the scenario body consists of a LUMA operation for the
first pixel, a RUN operation with count 1 (byte 192, covering only the
second pixel), and a LUMA operation for the third pixel; decoding the
encoded stream reproduces the original 3 pixels. -/
theorem c7_scenario :
    bytesFrom ⟨idx0, 0, startPx⟩ (toPixels [1, 2, 3, 255, 1, 2, 3, 255, 4, 5, 6, 255]) =
      [162, 121, 192, 163, 136] ∧
    (162 : Nat) / 64 = 2 ∧ (192 : Nat) / 64 = 3 ∧ (192 : Nat) % 64 + 1 = 1 ∧
    (163 : Nat) / 64 = 2 ∧
    decode (encode [1, 2, 3, 255, 1, 2, 3, 255, 4, 5, 6, 255] 3 1 0) =
      .ok [1, 2, 3, 255, 1, 2, 3, 255, 4, 5, 6, 255] := by
  decide

/-- C8 (counterexample): the third pixel (0,0,0,64) of this buffer has
alpha 64 while the running reference pixel (9,0,0,255) has alpha 255,
but it matches its recent-color-index slot, so the encoder emits the
INDEX byte 0x00 — not an RGBA operation. -/
theorem c8_counterexample :
    bytesFrom ⟨idx0, 0, startPx⟩ (toPixels [0, 0, 0, 64, 9, 0, 0, 255, 0, 0, 0, 64]) =
      [255, 0, 0, 0, 64, 255, 9, 0, 0, 255, 0] ∧
    (64 : Nat) ≠ 255 ∧ (0 : Nat) / 64 = 0 ∧ (0 : Nat) ≠ 255 := by
  decide

/-- C8 (amended): a pixel whose alpha differs from the running reference
pixel's alpha and which does not match its recent-color-index slot is
always emitted as an RGBA operation, regardless of the channel deltas. -/
theorem c8_alpha_forces_rgba (c : EncCore) (p : Pixel)
    (hni : c.idx.getD (qoiHash p) startPx ≠ p) (ha : p.a ≠ c.old.a) :
    (encStep c p).2 = encFlush c ++ [255, p.r, p.g, p.b, p.a] := by
  have hpe : p ≠ c.old := fun h => ha (by rw [h])
  rw [encStep_bytes_op hpe, encOp_rgba hni ha]

/-- Witness for C8: the pixel (0,0,0,0) after the starting reference. -/
theorem c8_alpha_forces_rgba_witness :
    (encStep ⟨idx0, 0, startPx⟩ ⟨0, 0, 0, 0⟩).2 =
      encFlush ⟨idx0, 0, startPx⟩ ++ [255, 0, 0, 0, 0] :=
  c8_alpha_forces_rgba ⟨idx0, 0, startPx⟩ ⟨0, 0, 0, 0⟩ (by decide) (by decide)

/-- C9 (confirmed): for every body byte value below 256 the decoder's
operation dispatch resolves to one of the RGBA / RGB / RUN / LUMA /
DIFF / INDEX branches; the final `assert False` branch is unreachable. -/
theorem c9_assert_unreachable (data : List Nat) (s : DecState) (byte : Nat)
    (hb : byte < 256) : decodeDispatch data s byte ≠ .err .assertFail :=
  dispatch_ne_assertFail hb

/-- Witness for C9 at a concrete byte. -/
theorem c9_assert_unreachable_witness :
    decodeDispatch [] ⟨0, idx0, startPx, []⟩ 7 ≠ .err .assertFail :=
  c9_assert_unreachable [] ⟨0, idx0, startPx, []⟩ 7 (by decide)

/-- C10 (counterexample): on the 15-byte stream of a header followed by
a single `0x00` body byte, the decoder reads `data[read_index + 1]` one
position past the end of the buffer (a Python `IndexError`, modelled as
`DecErr.oob`) — so not every read on every input stream is in bounds. -/
theorem c10_counterexample :
    decode (List.replicate 14 0 ++ [0]) = .error .oob := by
  decide

/-- C10 (amended): on every stream produced by `encode` from a valid
RGBA buffer, every read the decoder performs is within bounds: decoding
never fails with an out-of-bounds read (in fact it never fails at all,
`decode_encode_isOk`). -/
theorem c10_encoded_reads_in_bounds (P : List Nat) (width height colorspace : Nat)
    (hP : ∀ x ∈ P, x < 256) (h4 : P.length % 4 = 0) :
    decode (encode P width height colorspace) ≠ .error .oob := by
  obtain ⟨v, hv⟩ := decode_encode_isOk P width height colorspace
  rw [hv]
  simp

/-- Witness for C10 on a concrete one-pixel buffer. -/
theorem c10_encoded_reads_in_bounds_witness :
    decode (encode [1, 2, 3, 255] 1 1 0) ≠ .error .oob :=
  c10_encoded_reads_in_bounds [1, 2, 3, 255] 1 1 0 (by decide) (by decide)
